import Mathlib

/-!
Verification of the inter-task data-exchange layer of the ME507 support
library (taskqueue.h, taskshare.h, baseshare.h / baseshare.cpp).

The kernel channel (a FreeRTOS queue) is modelled as a bounded list of
items, front at the head.  The wrapper classes `Queue<T>`, `Share<T>` and
the registry base class `BaseShare` are embedded as Lean functions over
explicit state, translated line by line from the source.  Machine
integers that matter (`uint16_t max_full`, `uint16_t fillage`,
`uint8_t namelength`) are modelled as `Nat` with explicit `% 2^w`.
-/

namespace ME507

/-! ## Kernel channel model (the FreeRTOS queue collaborator)

The underlying kernel primitives (`xQueueCreate`, `xQueueSendToBack`,
`xQueueReceive`, ...) are external to the repository; they are modelled
here with their documented semantics: a bounded FIFO buffer.  In a
single-threaded model a full queue stays full and an empty queue stays
empty for the duration of any one call, so a blocking call with a finite
timeout fails with the state unchanged, and a blocking call with
`portMAX_DELAY` on an empty queue never returns (modelled as `none`). -/

/-- A FreeRTOS queue: a fixed capacity and the items currently stored,
front of the queue at the head of the list. -/
structure KernelQueue (α : Type) where
  capacity : Nat
  items : List α
deriving DecidableEq

/-- `xQueueCreate(queue_size, item_size)`: allocates a bounded channel able
to hold `queue_size` items.  Allocation may fail (out of memory), in which
case the C function returns NULL; the outcome is modelled by `alloc_ok`. -/
def xQueueCreate (α : Type) (queue_size : Nat) (alloc_ok : Bool) :
    Option (KernelQueue α) :=
  if alloc_ok then some ⟨queue_size, []⟩ else none

/-- `xQueueSendToBack(handle, &item, ticks)`: appends `item` at the tail if
there is space; on a full queue the call waits out its timeout and fails
(in a sequential model nobody can free space meanwhile).  Returns the
kernel's pdTRUE/pdFALSE status and the new queue state. -/
def xQueueSendToBack {α : Type} (q : KernelQueue α) (item : α) :
    Bool × KernelQueue α :=
  if q.items.length < q.capacity then
    (true, ⟨q.capacity, q.items ++ [item]⟩)
  else
    (false, q)

/-- `xQueueSendToFront(handle, &item, ticks)`: like `xQueueSendToBack` but
inserts at the head of the queue. -/
def xQueueSendToFront {α : Type} (q : KernelQueue α) (item : α) :
    Bool × KernelQueue α :=
  if q.items.length < q.capacity then
    (true, ⟨q.capacity, item :: q.items⟩)
  else
    (false, q)

/-- `xQueueSendToBackFromISR(handle, &item, &woken)`: ISR-safe append; never
blocks, fails immediately when full.  Same state effect as the task-context
variant in this model. -/
def xQueueSendToBackFromISR {α : Type} (q : KernelQueue α) (item : α) :
    Bool × KernelQueue α :=
  xQueueSendToBack q item

/-- `xQueueSendToFrontFromISR(handle, &item, &woken)`: ISR-safe insert at
the head; never blocks. -/
def xQueueSendToFrontFromISR {α : Type} (q : KernelQueue α) (item : α) :
    Bool × KernelQueue α :=
  xQueueSendToFront q item

/-- `xQueueReceive(handle, &buf, ticks)`: removes the head item into the
caller's buffer; on an empty queue the call times out and the buffer is
left unchanged.  Returns (status, new queue state, buffer content). -/
def xQueueReceive {α : Type} (q : KernelQueue α) (buf : α) :
    Bool × KernelQueue α × α :=
  match q.items with
  | [] => (false, q, buf)
  | x :: rest => (true, ⟨q.capacity, rest⟩, x)

/-- `xQueueReceiveFromISR(handle, &buf, &woken)`: ISR-safe non-blocking
dequeue; same state effect in this model. -/
def xQueueReceiveFromISR {α : Type} (q : KernelQueue α) (buf : α) :
    Bool × KernelQueue α × α :=
  xQueueReceive q buf

/-- `xQueuePeek(handle, &buf, ticks)` with a finite timeout: copies the head
item into the caller's buffer without removing it; on an empty queue the
buffer is left unchanged. -/
def xQueuePeek {α : Type} (q : KernelQueue α) (buf : α) :
    Bool × KernelQueue α × α :=
  match q.items with
  | [] => (false, q, buf)
  | x :: _ => (true, q, x)

/-- `xQueuePeek(handle, &buf, portMAX_DELAY)`: blocking peek with an
indefinite timeout.  On an empty queue the calling task blocks forever in
a sequential model, so the call never returns (`none`); otherwise it
returns the unchanged queue and the head item. -/
def xQueuePeekBlocking {α : Type} (q : KernelQueue α) :
    Option (KernelQueue α × α) :=
  match q.items with
  | [] => none
  | x :: _ => some (q, x)

/-- `xQueuePeekFromISR(handle, &buf)`: ISR-safe non-blocking peek. -/
def xQueuePeekFromISR {α : Type} (q : KernelQueue α) (buf : α) :
    Bool × KernelQueue α × α :=
  xQueuePeek q buf

/-- `uxQueueMessagesWaiting(handle)`: current occupancy. -/
def uxQueueMessagesWaiting {α : Type} (q : KernelQueue α) : Nat :=
  q.items.length

/-- `uxQueueMessagesWaitingFromISR(handle)`: current occupancy, ISR-safe. -/
def uxQueueMessagesWaitingFromISR {α : Type} (q : KernelQueue α) : Nat :=
  q.items.length

/-- `xQueueOverwrite(handle, &item)`: intended for one-deep queues; replaces
whatever the queue holds with `item` and always succeeds. -/
def xQueueOverwrite {α : Type} (q : KernelQueue α) (item : α) :
    KernelQueue α :=
  ⟨q.capacity, [item]⟩

/-- `xQueueOverwriteFromISR(handle, &item, &woken)`: ISR-safe overwrite. -/
def xQueueOverwriteFromISR {α : Type} (q : KernelQueue α) (item : α) :
    KernelQueue α :=
  xQueueOverwrite q item

/-! ## `Queue<dataType>` (src/src/taskqueue.h)

The wrapper's state: the queue handle (NULL when `xQueueCreate` failed),
the stored default timeout, and the two `uint16_t` bookkeeping members
`buf_size` and `max_full`.  The display name inherited from `BaseShare`
is carried as a `String` here; the byte-level name-saving logic of the
`BaseShare` constructor is modelled separately below.  Operations through
a NULL handle are undefined behaviour in FreeRTOS, so every operation
returns `Option`, `none` standing for that case. -/

structure Queue (α : Type) where
  /-- `QueueHandle_t handle` -/
  handle : Option (KernelQueue α)
  /-- `TickType_t ticks_to_wait` -/
  ticks_to_wait : Nat
  /-- `uint16_t buf_size` -/
  buf_size : Nat
  /-- `uint16_t max_full` -/
  max_full : Nat
  /-- `char name[16]` inherited from `BaseShare`, as its display string -/
  name : String
deriving DecidableEq

/-- `Queue::Queue(queue_size, p_name, wait_time)`: creates the FreeRTOS
queue, stores the wait time, saves the buffer size in the `uint16_t`
member, and starts the high-water mark at zero. -/
def Queue.create (α : Type) (queue_size : Nat) (p_name : String)
    (wait_time : Nat) (alloc_ok : Bool) : Queue α :=
  { handle := xQueueCreate α queue_size alloc_ok
    ticks_to_wait := wait_time
    buf_size := queue_size % 65536
    max_full := 0
    name := p_name }

/-- `Queue::put(item)`: `xQueueSendToBack` with the stored timeout, then
update the high-water mark: `uint16_t fillage = uxQueueMessagesWaiting`;
`if (fillage > max_full) max_full = fillage;`.  Returns the success flag
and the new wrapper state. -/
def Queue.put {α : Type} (q : Queue α) (item : α) :
    Option (Bool × Queue α) :=
  q.handle.map fun kq =>
    let r := xQueueSendToBack kq item
    let fillage := uxQueueMessagesWaiting r.2 % 65536
    let max_full := if fillage > q.max_full then fillage else q.max_full
    (r.1, { q with handle := some r.2, max_full := max_full })

/-- `Queue::ISR_put(item)`: `xQueueSendToBackFromISR`, then the same
high-water-mark update using `uxQueueMessagesWaitingFromISR`. -/
def Queue.ISR_put {α : Type} (q : Queue α) (item : α) :
    Option (Bool × Queue α) :=
  q.handle.map fun kq =>
    let r := xQueueSendToBackFromISR kq item
    let fillage := uxQueueMessagesWaitingFromISR r.2 % 65536
    let max_full := if fillage > q.max_full then fillage else q.max_full
    (r.1, { q with handle := some r.2, max_full := max_full })

/-- `Queue::butt_in(item)`: `xQueueSendToFront` with the stored timeout;
the high-water mark is not touched. -/
def Queue.butt_in {α : Type} (q : Queue α) (item : α) :
    Option (Bool × Queue α) :=
  q.handle.map fun kq =>
    let r := xQueueSendToFront kq item
    (r.1, { q with handle := some r.2 })

/-- `Queue::ISR_butt_in(item)`: `xQueueSendToFrontFromISR`; the high-water
mark is not touched. -/
def Queue.ISR_butt_in {α : Type} (q : Queue α) (item : α) :
    Option (Bool × Queue α) :=
  q.handle.map fun kq =>
    let r := xQueueSendToFrontFromISR kq item
    (r.1, { q with handle := some r.2 })

/-- `Queue::get(recv_item)`: `void` return; calls `xQueueReceive` with the
stored timeout and discards its status, so the caller sees only the new
state and the (possibly unchanged) buffer. -/
def Queue.get {α : Type} (q : Queue α) (recv_item : α) :
    Option (Queue α × α) :=
  q.handle.map fun kq =>
    let r := xQueueReceive kq recv_item
    ({ q with handle := some r.2.1 }, r.2.2)

/-- `Queue::ISR_get(recv_item)`: `void` return; `xQueueReceiveFromISR`,
status discarded. -/
def Queue.ISR_get {α : Type} (q : Queue α) (recv_item : α) :
    Option (Queue α × α) :=
  q.handle.map fun kq =>
    let r := xQueueReceiveFromISR kq recv_item
    ({ q with handle := some r.2.1 }, r.2.2)

/-- `Queue::peek(recv_item)`: `void` return; `xQueuePeek` with the stored
timeout, status discarded. -/
def Queue.peek {α : Type} (q : Queue α) (recv_item : α) :
    Option (Queue α × α) :=
  q.handle.map fun kq =>
    let r := xQueuePeek kq recv_item
    ({ q with handle := some r.2.1 }, r.2.2)

/-- `Queue::ISR_peek(recv_item)`: `void` return; `xQueuePeekFromISR`. -/
def Queue.ISR_peek {α : Type} (q : Queue α) (recv_item : α) :
    Option (Queue α × α) :=
  q.handle.map fun kq =>
    let r := xQueuePeekFromISR kq recv_item
    ({ q with handle := some r.2.1 }, r.2.2)

/-- `Queue::available()`: `uxQueueMessagesWaiting(handle)`. -/
def Queue.available {α : Type} (q : Queue α) : Option Nat :=
  q.handle.map uxQueueMessagesWaiting

/-- `Queue::usable()`: `(bool)handle` — true iff the handle is not NULL. -/
def Queue.usable {α : Type} (q : Queue α) : Bool :=
  q.handle.isSome

/-- `printf("%-16s", name)`: print the name left justified, padded with
spaces on the right to at least 16 columns. -/
def padTo16 (s : String) : String :=
  s ++ String.mk (List.replicate (16 - s.length) ' ')

/-- The `endl` written by the diagnostic printout. -/
def endlStr : String := "\n"

/-- The single line `Queue::print_in_list` contributes to the diagnostic
report (the recursion to `p_next` is part of the registry walk, modelled
below): the padded name, the kind tag, then either
`max_full/buf_size` or the literal `UNUSABLE`. -/
def Queue.statusLine {α : Type} (q : Queue α) : String :=
  padTo16 q.name ++ "queue\t" ++
    (if q.usable then
      toString q.max_full ++ "/" ++ toString q.buf_size ++ endlStr
    else
      "UNUSABLE" ++ endlStr)

/-! ### Operation sequences on a `Queue` -/

/-- The enqueue calls of claim C1: `put` (back of the queue) and `butt_in`
(front of the queue). -/
inductive PutOp (α : Type) where
  | put (item : α)
  | butt_in (item : α)
deriving DecidableEq

/-- Run a sequence of enqueue calls, collecting each call's success flag. -/
def Queue.runPuts {α : Type} (q : Queue α) :
    List (PutOp α) → Option (List Bool × Queue α)
  | [] => some ([], q)
  | op :: rest =>
    (match op with
     | .put v => q.put v
     | .butt_in v => q.butt_in v).bind fun r =>
      (r.2.runPuts rest).map fun (s : List Bool × Queue α) => (r.1 :: s.1, s.2)

/-- Perform `n` successive `get` calls, each into a fresh variable whose
prior content is `d`, collecting the values the callers read back. -/
def Queue.getN {α : Type} (q : Queue α) (d : α) :
    Nat → Option (List α × Queue α)
  | 0 => some ([], q)
  | n + 1 =>
    (q.get d).bind fun r =>
      (r.1.getN d n).map fun (s : List α × Queue α) => (r.2 :: s.1, s.2)

/-- The delivery order claimed by the spec, computed over the contents
front-to-back: a `put` joins behind everything queued so far and a
`butt_in` goes ahead of everything queued at the time of the call. -/
def fifoOrderAux {α : Type} (acc : List α) : List (PutOp α) → List α
  | [] => acc
  | .put v :: rest => fifoOrderAux (acc ++ [v]) rest
  | .butt_in v :: rest => fifoOrderAux (v :: acc) rest

/-- The claimed delivery order for a sequence of enqueue calls starting
from an empty queue. -/
def fifoOrder {α : Type} (ops : List (PutOp α)) : List α :=
  fifoOrderAux [] ops

/-- All state-changing operations of the `Queue` wrapper, for the
high-water-mark invariant. -/
inductive QOp (α : Type) where
  | put (item : α)
  | isr_put (item : α)
  | butt_in (item : α)
  | isr_butt_in (item : α)
  | get
  | isr_get
  | peek
  | isr_peek
deriving DecidableEq

/-- One wrapper call; `d` is the prior content of the buffer variable a
`get`/`peek` call reads into.  Outputs are discarded, only the state is
kept. -/
def Queue.step {α : Type} (q : Queue α) (d : α) : QOp α → Option (Queue α)
  | .put v => (q.put v).map (fun r => r.2)
  | .isr_put v => (q.ISR_put v).map (fun r => r.2)
  | .butt_in v => (q.butt_in v).map (fun r => r.2)
  | .isr_butt_in v => (q.ISR_butt_in v).map (fun r => r.2)
  | .get => (q.get d).map (fun r => r.1)
  | .isr_get => (q.ISR_get d).map (fun r => r.1)
  | .peek => (q.peek d).map (fun r => r.1)
  | .isr_peek => (q.ISR_peek d).map (fun r => r.1)

/-- Run a sequence of wrapper calls. -/
def Queue.run {α : Type} (q : Queue α) (d : α) :
    List (QOp α) → Option (Queue α)
  | [] => some q
  | op :: rest => (q.step d op).bind fun q1 => q1.run d rest

/-- `n` successive `put` calls of the same item (used to reach concrete
states). -/
def Queue.putReps {α : Type} (q : Queue α) (item : α) :
    Nat → Option (Queue α)
  | 0 => some q
  | n + 1 => (q.putReps item n).bind fun qn => (qn.put item).map (fun r => r.2)

/-! ## `Share<DataType>` (src/src/taskshare.h)

A share keeps its data in a one-deep kernel queue.  As for `Queue`, a
NULL queue handle makes every kernel call undefined behaviour, modelled
with `Option`. -/

structure Share (α : Type) where
  /-- `QueueHandle_t queue` -/
  queue : Option (KernelQueue α)
  /-- `char name[16]` inherited from `BaseShare`, as its display string -/
  name : String
deriving DecidableEq

/-- `Share::Share(p_name)`: `queue = xQueueCreate(1, sizeof(DataType))`.
The data is not initialized: the fresh queue is empty. -/
def Share.create (α : Type) (p_name : String) (alloc_ok : Bool) : Share α :=
  { queue := xQueueCreate α 1 alloc_ok, name := p_name }

/-- `Share::put(new_data)`: `xQueueOverwrite(queue, &new_data)`; `void`
return, never blocks. -/
def Share.put {α : Type} (s : Share α) (new_data : α) : Option (Share α) :=
  s.queue.map fun kq => { s with queue := some (xQueueOverwrite kq new_data) }

/-- `Share::ISR_put(new_data)`: `xQueueOverwriteFromISR`. -/
def Share.ISR_put {α : Type} (s : Share α) (new_data : α) : Option (Share α) :=
  s.queue.map fun kq =>
    { s with queue := some (xQueueOverwriteFromISR kq new_data) }

/-- `Share::operator<<(new_data)`: checks `CHECK_IF_IN_ISR()` and calls
`xQueueOverwriteFromISR` or `xQueueOverwrite` accordingly; `in_isr` is the
result of that context check. -/
def Share.op_insert {α : Type} (in_isr : Bool) (s : Share α) (new_data : α) :
    Option (Share α) :=
  if in_isr then
    s.queue.map fun kq =>
      { s with queue := some (xQueueOverwriteFromISR kq new_data) }
  else
    s.queue.map fun kq =>
      { s with queue := some (xQueueOverwrite kq new_data) }

/-- `Share::get(recv_data)`: `xQueuePeek(queue, &recv_data, portMAX_DELAY)`.
Blocks forever on a never-written share (`none`); otherwise returns the
unchanged share and the value copied into the caller's variable. -/
def Share.get {α : Type} (s : Share α) (recv_data : α) :
    Option (Share α × α) :=
  s.queue.bind fun kq =>
    (xQueuePeekBlocking kq).map fun r => ({ s with queue := some r.1 }, r.2)

/-- `Share::get()` (return-by-value form): peeks into a local variable and
returns it. -/
def Share.getVal {α : Type} (s : Share α) : Option α :=
  s.queue.bind fun kq => (xQueuePeekBlocking kq).map fun r => r.2

/-- `Share::operator>>(DataType put_here)`: the parameter is declared BY
VALUE in the source, not as a reference, so `put_here` is a local copy of
the caller's argument; the peek writes into that local copy, which is
discarded when the operator returns.  The result here is the value the
CALLER's variable holds after the call.  `in_isr` is the result of
`CHECK_IF_IN_ISR()`; in task context the peek uses `portMAX_DELAY`, so an
empty share blocks forever (`none`). -/
def Share.op_extract {α : Type} (in_isr : Bool) (s : Share α)
    (put_here : α) : Option α :=
  if in_isr then
    s.queue.map fun kq =>
      let _local := xQueuePeekFromISR kq put_here
      put_here
  else
    s.queue.bind fun kq =>
      (xQueuePeekBlocking kq).map fun _r => put_here

/-- `Share::ISR_get(recv_data)`: `xQueuePeekFromISR(queue, &recv_data)`;
non-blocking, the variable is unchanged when the share is empty. -/
def Share.ISR_get {α : Type} (s : Share α) (recv_data : α) : Option α :=
  s.queue.map fun kq => (xQueuePeekFromISR kq recv_data).2.2

/-! ## `BaseShare` registry (src/src/baseshare.h, baseshare.cpp)

Every `Queue`/`Share` self-registers at construction: its `p_next` is set
to the previous `p_newest` and `p_newest` is pointed at itself.  The heap
of entries is modelled as an arena indexed by creation order; a pointer
is an arena index, NULL is `none`. -/

/-- One registry entry: its display name and its `p_next` link (an arena
index; `none` is NULL). -/
structure RegEntry where
  name : String
  p_next : Option Nat
deriving DecidableEq

/-- The registry: the entries in creation order, plus the static
`BaseShare::p_newest` pointer. -/
structure Registry where
  arena : List RegEntry
  p_newest : Option Nat
deriving DecidableEq

/-- The initial registry state: `BaseShare* BaseShare::p_newest = NULL;`
and no entries constructed yet. -/
def Registry.empty : Registry := ⟨[], none⟩

/-- The registration step of `BaseShare::BaseShare`: the new entry's
`p_next = p_newest`, then `p_newest = this`. -/
def Registry.register (r : Registry) (nm : String) : Registry :=
  ⟨r.arena ++ [⟨nm, r.p_newest⟩], some r.arena.length⟩

/-- Construct entries with the given names, in order. -/
def Registry.registerAll (names : List String) : Registry :=
  names.foldl Registry.register Registry.empty

/-- `print_in_list` recursion: visit the entry at arena index `i` (its
"describe" step contributes its name), then follow `p_next` until NULL.
`fuel` bounds the walk; `none` is a wild pointer or an exhausted bound,
neither of which occurs in a well-formed registry. -/
def Registry.walkFrom (r : Registry) : Nat → Nat → Option (List String)
  | _, 0 => none
  | i, fuel + 1 =>
    (r.arena.get? i).bind fun e =>
      match e.p_next with
      | none => some [e.name]
      | some j => (r.walkFrom j fuel).map fun rest => e.name :: rest

/-- `print_all_shares(printer)`: after the two header lines it calls
`BaseShare::p_newest->print_in_list(printer)` UNCONDITIONALLY; when
`p_newest` is NULL that call dereferences a null pointer, modelled as
`none`.  Otherwise the result is the visit order of the walk. -/
def print_all_shares (r : Registry) : Option (List String) :=
  match r.p_newest with
  | none => none
  | some i => r.walkFrom i r.arena.length

/-! ## `BaseShare::BaseShare` name saving, at byte level

`char name[16]` is an uninitialized member, so its prior bytes are
arbitrary.  The constructor does, for a non-NULL `p_name`:
`uint8_t namelength = strlen(p_name);`
`namelength = (namelength <= 15) ? namelength : 15;`
`strncpy(name, p_name, namelength);`
— `strncpy` with a count no larger than the source's length copies
exactly that many bytes and writes NO terminator.  For a NULL `p_name`
it does `strcpy(name, "(No Name)")`, which does write the terminator. -/

/-- The bytes of the literal `"(No Name)"`. -/
def noNameBytes : List Nat := [40, 78, 111, 32, 78, 97, 109, 101, 41]

/-- The 16 bytes of the `name` member after `BaseShare::BaseShare` runs.
`buf` is the member's prior (arbitrary) content; `p_name` is the bytes of
the argument C string without its NUL terminator (all nonzero), `none`
standing for a NULL pointer. -/
def baseShareName (buf : List Nat) (p_name : Option (List Nat)) : List Nat :=
  match p_name with
  | some pn =>
    let namelength := pn.length % 256
    let namelength := if namelength ≤ 15 then namelength else 15
    pn.take namelength ++ buf.drop namelength
  | none => noNameBytes ++ [0] ++ buf.drop 10

/-- Read a `char[16]` buffer as a C string: the bytes before the first
NUL, or `none` when the buffer holds no NUL at all (any reader such as
`printf("%-16s", name)` then runs off the end of the array). -/
def cstrRead (buf : List Nat) : Option (List Nat) :=
  if buf.contains 0 then some (buf.takeWhile (fun b => b ≠ 0)) else none

/-! ## Auxiliary predicates and concrete states for the theorems -/

/-- The reachable-state invariant of a `Queue` created with capacity
`cap` and a successful allocation: the handle is valid, the kernel queue
keeps its capacity, occupancy never exceeds it, and neither does the
high-water mark. -/
def QInv {α : Type} (cap : Nat) (q : Queue α) : Prop :=
  ∃ kq : KernelQueue α, q.handle = some kq ∧ kq.capacity = cap ∧
    kq.items.length ≤ cap ∧ q.max_full ≤ cap

/-- The state of `Queue<Unit>` of capacity 2^16 after 65535 successful
`put` calls: occupancy 65535, high-water mark 65535 (`buf_size`, a
`uint16_t`, has wrapped to 0). -/
def cexQ : Queue Unit :=
  ⟨some ⟨65536, List.replicate 65535 ()⟩, 0, 0, 65535, "Q"⟩

/-- The state after one further successful `put`: occupancy 65536, but the
`uint16_t` occupancy snapshot wrapped to 0, so `max_full` stays 65535. -/
def cexQ2 : Queue Unit :=
  ⟨some ⟨65536, List.replicate 65536 ()⟩, 0, 0, 65535, "Q"⟩

/-! ## Theorems -/

/-- C3: for every `Share` with a valid handle and all values `v1, v2` and
any prior content `x` of the reader's variable, `put(v1)` then `put(v2)`
then `get()` returns exactly `v2` (so never `v1`): a write unconditionally
overwrites any unconsumed previous value. -/
theorem share_put_put_get {α : Type} (s : Share α) (kq : KernelQueue α)
    (h : s.queue = some kq) (x v1 v2 : α) :
    ((s.put v1).bind fun s1 => s1.put v2).bind (fun s2 => s2.get x)
      = some ({ s with queue := some ⟨kq.capacity, [v2]⟩ }, v2) := by
  simp [Share.put, Share.get, h, xQueueOverwrite, xQueuePeekBlocking]

theorem share_put_put_get_witness :
    (Share.create Nat "S" true).queue = some ⟨1, []⟩ ∧
    (((Share.create Nat "S" true).put 1).bind (fun s1 => s1.put 2)).bind
        (fun s2 => s2.get 0)
      = some ({ Share.create Nat "S" true with queue := some ⟨1, [2]⟩ }, 2) :=
  ⟨rfl, share_put_put_get (Share.create Nat "S" true) ⟨1, []⟩ rfl 0 1 2⟩

/-- C9: for every `Share` holding a value `v`, two consecutive `get()`
calls with no intervening `put` both return `v`: the read is a
non-destructive peek. -/
theorem share_get_twice {α : Type} (s : Share α) (kq : KernelQueue α)
    (v : α) (h : s.queue = some kq) (hv : kq.items = [v]) (x1 x2 : α) :
    (s.get x1).bind (fun r => (r.1.get x2).map fun r2 => (r.2, r2.2))
      = some (v, v) := by
  simp [Share.get, h, xQueuePeekBlocking, hv]

theorem share_get_twice_witness :
    (⟨some ⟨1, [42]⟩, "S"⟩ : Share Nat).queue = some ⟨1, [42]⟩ ∧
    ((⟨some ⟨1, [42]⟩, "S"⟩ : Share Nat).get 0).bind
        (fun r => (r.1.get 7).map fun r2 => (r.2, r2.2)) = some (42, 42) :=
  ⟨rfl, share_get_twice ⟨some ⟨1, [42]⟩, "S"⟩ ⟨1, [42]⟩ 42 rfl rfl 0 7⟩

/-- C2 is violated: `Share::operator>>` declares its parameter
`DataType put_here` BY VALUE, so the peeked data lands in a discarded
local copy and the caller's variable keeps its old value, while
`Share::get` (whose parameter is a reference) does deliver the stored
value.  Here: a share holding 42, reached by `put 42` on a fresh share,
and a caller variable previously 0 — after `share >> x` the caller's
variable is still 0, after `share.get(x)` it is 42. -/
theorem share_extract_by_value_bug :
    (Share.create Nat "S" true).put 42 = some ⟨some ⟨1, [42]⟩, "S"⟩ ∧
    Share.op_extract false (⟨some ⟨1, [42]⟩, "S"⟩ : Share Nat) 0 = some 0 ∧
    Share.get (⟨some ⟨1, [42]⟩, "S"⟩ : Share Nat) 0
      = some (⟨some ⟨1, [42]⟩, "S"⟩, 42) :=
  ⟨rfl, rfl, rfl⟩

/-- C6: a `Queue` whose channel allocation failed reports `usable() ==
false` (and `true` on success), and its diagnostic line carries the
literal `UNUSABLE` where a usable queue's line carries the
`max_full/buf_size` figures. -/
theorem queue_usable_and_status_line (α : Type) (cap w : Nat) (nm : String)
    (q q' : Queue α) (kq : KernelQueue α)
    (h : q.handle = none) (h' : q'.handle = some kq) :
    (Queue.create α cap nm w false).usable = false ∧
    (Queue.create α cap nm w true).usable = true ∧
    q.statusLine = padTo16 q.name ++ "queue\t" ++ ("UNUSABLE" ++ endlStr) ∧
    q'.statusLine = padTo16 q'.name ++ "queue\t"
      ++ (toString q'.max_full ++ "/" ++ toString q'.buf_size ++ endlStr) := by
  refine ⟨?_, ?_, ?_, ?_⟩
  · simp [Queue.create, Queue.usable, xQueueCreate]
  · simp [Queue.create, Queue.usable, xQueueCreate]
  · simp [Queue.statusLine, Queue.usable, h]
  · simp [Queue.statusLine, Queue.usable, h']

theorem queue_usable_and_status_line_witness :
    (Queue.create Nat 10 "Q" 0 false).handle = none ∧
    (Queue.create Nat 10 "Q2" 0 true).handle = some ⟨10, []⟩ ∧
    ((Queue.create Nat 10 "Q" 0 false).usable = false ∧
     (Queue.create Nat 10 "Q" 0 true).usable = true ∧
     (Queue.create Nat 10 "Q" 0 false).statusLine
       = padTo16 (Queue.create Nat 10 "Q" 0 false).name ++ "queue\t"
         ++ ("UNUSABLE" ++ endlStr) ∧
     (Queue.create Nat 10 "Q2" 0 true).statusLine
       = padTo16 (Queue.create Nat 10 "Q2" 0 true).name ++ "queue\t"
         ++ (toString (Queue.create Nat 10 "Q2" 0 true).max_full ++ "/"
             ++ toString (Queue.create Nat 10 "Q2" 0 true).buf_size
             ++ endlStr)) :=
  ⟨rfl, rfl, queue_usable_and_status_line Nat 10 0 "Q"
    (Queue.create Nat 10 "Q" 0 false) (Queue.create Nat 10 "Q2" 0 true)
    ⟨10, []⟩ rfl rfl⟩

/-- C4 (amended): a `get` on an empty `Queue` with timeout 0 fails at
once, leaving both the output variable and the queue state unchanged;
`Queue::get` returns `void`, so no success indication reaches the
caller. -/
theorem queue_get_empty_timeout0 {α : Type} (q : Queue α)
    (kq : KernelQueue α) (x : α) (hh : q.handle = some kq)
    (he : kq.items = []) (hw : q.ticks_to_wait = 0) :
    q.get x = some (q, x) := by
  have h1 : { q with handle := some kq } = q := by rw [← hh]
  simp [Queue.get, hh, xQueueReceive, he, h1]

theorem queue_get_empty_timeout0_witness :
    (Queue.create Nat 4 "Q" 0 true).handle = some ⟨4, []⟩ ∧
    (⟨4, []⟩ : KernelQueue Nat).items = [] ∧
    (Queue.create Nat 4 "Q" 0 true).ticks_to_wait = 0 ∧
    (Queue.create Nat 4 "Q" 0 true).get 9
      = some (Queue.create Nat 4 "Q" 0 true, 9) :=
  ⟨rfl, rfl, rfl,
    queue_get_empty_timeout0 (Queue.create Nat 4 "Q" 0 true) ⟨4, []⟩ 9
      rfl rfl rfl⟩

/-- C4's surfacing clause is violated: `Queue::get` returns `void` and
discards the kernel's status, so a failed `get` on an empty queue is
indistinguishable to the caller from a successful `get` that read back
the variable's old value.  Concretely, with timeout 0: the kernel reports
failure on the empty queue and success on the queue holding 5 (reached by
`butt_in 5`, which leaves `max_full` alone), yet the two wrapper calls
with prior variable content 5 produce identical results. -/
theorem queue_get_failure_invisible :
    (Queue.create Nat 4 "Q" 0 true).butt_in 5
      = some (true, { Queue.create Nat 4 "Q" 0 true with
                        handle := some ⟨4, [5]⟩ }) ∧
    (xQueueReceive (⟨4, []⟩ : KernelQueue Nat) 5).1 = false ∧
    (xQueueReceive (⟨4, [5]⟩ : KernelQueue Nat) 5).1 = true ∧
    (Queue.create Nat 4 "Q" 0 true).get 5
      = Queue.get { Queue.create Nat 4 "Q" 0 true with
                      handle := some ⟨4, [5]⟩ } 5 :=
  ⟨rfl, rfl, rfl, rfl⟩

/-- C8 is violated: for a supplied name, `strncpy(name, p_name,
min(strlen, 15))` copies the name's bytes but never writes a NUL
terminator, so over an uninitialized `name` buffer (here: sixteen 0x58
bytes) the stored buffer is not a well-formed string at all — reading it
runs past the copied bytes into garbage.  The unnamed branch uses
`strcpy` and does store the well-formed sentinel `"(No Name)"`. -/
theorem baseshare_name_not_terminated :
    baseShareName (List.replicate 16 88) (some [65, 66])
      = [65, 66] ++ List.replicate 14 88 ∧
    cstrRead (baseShareName (List.replicate 16 88) (some [65, 66]))
      = none ∧
    cstrRead (baseShareName (List.replicate 16 88) none)
      = some noNameBytes := by
  refine ⟨by decide, by decide, by decide⟩

/-! ### Registry walk lemmas -/

theorem registerAll_append (l : List String) (nm : String) :
    Registry.registerAll (l ++ [nm])
      = (Registry.registerAll l).register nm := by
  simp [Registry.registerAll, List.foldl_append]

theorem registerAll_arena_length (l : List String) :
    (Registry.registerAll l).arena.length = l.length := by
  induction l using List.reverseRecOn with
  | nil => rfl
  | append_singleton l nm ih =>
    simp [registerAll_append, Registry.register, ih]

theorem registerAll_p_newest (l : List String) :
    (Registry.registerAll l).p_newest
      = if l.length = 0 then none else some (l.length - 1) := by
  induction l using List.reverseRecOn with
  | nil => rfl
  | append_singleton l nm ih =>
    simp [registerAll_append, Registry.register, registerAll_arena_length]

theorem registerAll_arena_get (l : List String) :
    ∀ k nmk, l.get? k = some nmk →
      (Registry.registerAll l).arena.get? k
        = some ⟨nmk, if k = 0 then none else some (k - 1)⟩ := by
  induction l using List.reverseRecOn with
  | nil => intro k nmk hk; simp at hk
  | append_singleton l nm ih =>
    intro k nmk hk
    rw [registerAll_append]
    simp only [Registry.register]
    rcases Nat.lt_or_ge k l.length with hlt | hge
    · rw [List.get?_append (by rw [registerAll_arena_length]; exact hlt)]
      rw [List.get?_append hlt] at hk
      exact ih k nmk hk
    · have hkl : k < l.length + 1 := by
        have := List.get?_eq_some.mp hk
        simpa [List.length_append] using this.1
      have hk' : k = l.length := by omega
      subst hk'
      have hnm : nmk = nm := by
        rw [List.get?_append_right (Nat.le_refl _)] at hk
        simp at hk
        exact hk.symm
      subst hnm
      rw [List.get?_append_right (by rw [registerAll_arena_length])]
      rw [registerAll_arena_length, Nat.sub_self]
      simp only [List.get?]
      rw [registerAll_p_newest]

theorem walkFrom_registerAll (l : List String) :
    ∀ k, k < l.length →
      (Registry.registerAll l).walkFrom k (k + 1)
        = some (l.take (k + 1)).reverse := by
  intro k
  induction k with
  | zero =>
    intro hk
    obtain ⟨a, ha⟩ : ∃ a, l.get? 0 = some a := by
      cases l with
      | nil => simp at hk
      | cons a as => exact ⟨a, rfl⟩
    rw [Registry.walkFrom, registerAll_arena_get l 0 a ha]
    simp [List.take_succ, ← List.get?_eq_getElem?, ha]
  | succ k ih =>
    intro hk
    have hk' : k < l.length := Nat.lt_of_succ_lt hk
    obtain ⟨a, ha⟩ : ∃ a, l.get? (k + 1) = some a := by
      cases hg : l.get? (k + 1) with
      | none => exact absurd (List.get?_eq_none.mp hg) (Nat.not_le.mpr hk)
      | some a => exact ⟨a, rfl⟩
    rw [Registry.walkFrom, registerAll_arena_get l (k + 1) a ha]
    rw [if_neg (Nat.succ_ne_zero k), Nat.add_sub_cancel]
    show Option.map (fun rest => a :: rest)
        ((Registry.registerAll l).walkFrom k (k + 1))
      = some (List.take (k + 1 + 1) l).reverse
    rw [ih hk']
    simp [List.take_succ, ← List.get?_eq_getElem?, ha]

theorem print_all_registerAll (l : List String) (h : l ≠ []) :
    print_all_shares (Registry.registerAll l) = some l.reverse := by
  have hlen : 0 < l.length := List.length_pos.mpr h
  have hne : l.length ≠ 0 := Nat.pos_iff_ne_zero.mp hlen
  have hsub : l.length - 1 + 1 = l.length := Nat.succ_pred_eq_of_pos hlen
  have hw := walkFrom_registerAll l (l.length - 1) (by omega)
  rw [hsub, List.take_length] at hw
  rw [print_all_shares, registerAll_p_newest, if_neg hne,
    registerAll_arena_length]
  exact hw

/-- C7: entries register themselves by splicing onto the front of the
list (`p_next = p_newest; p_newest = this`), so for any non-empty
creation order the diagnostic walk of `print_all_shares` visits the
entries most-recently-created first, following `p_next` links down to the
initial entry whose link is NULL. -/
theorem registry_walk_most_recent_first (names : List String)
    (h : names ≠ []) :
    print_all_shares (Registry.registerAll names) = some names.reverse :=
  print_all_registerAll names h

theorem registry_walk_most_recent_first_witness :
    (["A", "B", "C"] : List String) ≠ [] ∧
    print_all_shares (Registry.registerAll ["A", "B", "C"])
      = some ["C", "B", "A"] :=
  ⟨by decide, registry_walk_most_recent_first ["A", "B", "C"] (by decide)⟩

/-- C10: `print_all_shares` dereferences `BaseShare::p_newest` without a
NULL check.  With an empty registry (the initial state,
`p_newest = NULL`) the call dereferences a null pointer (`none`); once at
least one entry has been constructed the walk is safe. -/
theorem print_all_shares_needs_entry (names : List String)
    (h : names ≠ []) :
    print_all_shares Registry.empty = none ∧
    (print_all_shares (Registry.registerAll names)).isSome = true := by
  refine ⟨rfl, ?_⟩
  rw [print_all_registerAll names h]
  rfl

theorem print_all_shares_needs_entry_witness :
    (["A"] : List String) ≠ [] ∧
    (print_all_shares Registry.empty = none ∧
     (print_all_shares (Registry.registerAll ["A"])).isSome = true) :=
  ⟨by decide, print_all_shares_needs_entry ["A"] (by decide)⟩

/-! ### FIFO ordering of `put` / `butt_in` followed by `get` (C1) -/

theorem fifoOrderAux_length {α : Type} :
    ∀ (ops : List (PutOp α)) (acc : List α),
      (fifoOrderAux acc ops).length = acc.length + ops.length := by
  intro ops
  induction ops with
  | nil => intro acc; simp [fifoOrderAux]
  | cons op rest ih =>
    intro acc
    cases op with
    | put v => rw [fifoOrderAux, ih]; simp; omega
    | butt_in v => rw [fifoOrderAux, ih]; simp; omega

theorem runPuts_spec {α : Type} :
    ∀ (ops : List (PutOp α)) (cap : Nat) (items : List α)
      (t b m : Nat) (nm : String),
      items.length + ops.length ≤ cap →
      ∃ m', Queue.runPuts ⟨some ⟨cap, items⟩, t, b, m, nm⟩ ops
          = some (List.replicate ops.length true,
                  ⟨some ⟨cap, fifoOrderAux items ops⟩, t, b, m', nm⟩) := by
  intro ops
  induction ops with
  | nil =>
    intro cap items t b m nm h
    exact ⟨m, by simp [Queue.runPuts, fifoOrderAux]⟩
  | cons op rest ih =>
    intro cap items t b m nm h
    cases op with
    | put v =>
      have hlt : items.length < cap := by
        simp [List.length_cons] at h; omega
      obtain ⟨m', hm'⟩ := ih cap (items ++ [v]) t b
        (if (items ++ [v]).length % 65536 > m
         then (items ++ [v]).length % 65536 else m) nm
        (by simp [List.length_append] at h ⊢; omega)
      refine ⟨m', ?_⟩
      simp only [Queue.runPuts, Queue.put, xQueueSendToBack,
        uxQueueMessagesWaiting, if_pos hlt, Option.map_some',
        Option.some_bind]
      rw [hm']
      simp [fifoOrderAux, List.replicate_succ]
    | butt_in v =>
      have hlt : items.length < cap := by
        simp [List.length_cons] at h; omega
      obtain ⟨m', hm'⟩ := ih cap (v :: items) t b m nm
        (by simp [List.length_cons] at h ⊢; omega)
      refine ⟨m', ?_⟩
      simp only [Queue.runPuts, Queue.butt_in, xQueueSendToFront,
        if_pos hlt, Option.map_some', Option.some_bind]
      rw [hm']
      simp [fifoOrderAux, List.replicate_succ]

theorem getN_spec {α : Type} (d : α) :
    ∀ (l : List α) (cap t b m : Nat) (nm : String),
      Queue.getN ⟨some ⟨cap, l⟩, t, b, m, nm⟩ d l.length
        = some (l, ⟨some ⟨cap, []⟩, t, b, m, nm⟩) := by
  intro l
  induction l with
  | nil => intro cap t b m nm; simp [Queue.getN]
  | cons x rest ih =>
    intro cap t b m nm
    simp only [List.length_cons, Queue.getN, Queue.get, xQueueReceive,
      Option.map_some', Option.some_bind]
    rw [ih]
    rfl

/-- C1: starting from a freshly created queue of capacity `cap`, any
sequence of `put` and `butt_in` calls of total length at most `cap` all
succeed, and an equal number of `get` calls then returns exactly
`fifoOrder ops`: the `put` items in the order they were put, except that
each `butt_in` item comes out ahead of everything that was queued at the
time of its call. -/
theorem queue_fifo_butt_in {α : Type} (d : α) (cap w : Nat) (nm : String)
    (ops : List (PutOp α)) (h : ops.length ≤ cap) :
    ∃ mf, (Queue.create α cap nm w true).runPuts ops
        = some (List.replicate ops.length true,
                ⟨some ⟨cap, fifoOrder ops⟩, w, cap % 65536, mf, nm⟩) ∧
      Queue.getN ⟨some ⟨cap, fifoOrder ops⟩, w, cap % 65536, mf, nm⟩ d
          ops.length
        = some (fifoOrder ops, ⟨some ⟨cap, []⟩, w, cap % 65536, mf, nm⟩) := by
  have hc : Queue.create α cap nm w true
      = ⟨some ⟨cap, []⟩, w, cap % 65536, 0, nm⟩ := by
    simp [Queue.create, xQueueCreate]
  obtain ⟨m', hm'⟩ := runPuts_spec ops cap [] w (cap % 65536) 0 nm
    (by simpa using h)
  refine ⟨m', ?_, ?_⟩
  · rw [hc]; exact hm'
  · have hl : ops.length = (fifoOrder ops).length := by
      rw [fifoOrder, fifoOrderAux_length]; simp
    rw [hl]
    exact getN_spec d (fifoOrder ops) cap w (cap % 65536) m' nm

theorem queue_fifo_butt_in_witness :
    ([PutOp.put 10, PutOp.butt_in 20, PutOp.put 30] : List (PutOp Nat)).length
        ≤ 3 ∧
    fifoOrder [PutOp.put 10, PutOp.butt_in 20, PutOp.put 30] = [20, 10, 30] ∧
    (∃ mf, (Queue.create Nat 3 "Q" 0 true).runPuts
          [PutOp.put 10, PutOp.butt_in 20, PutOp.put 30]
        = some (List.replicate
            ([PutOp.put 10, PutOp.butt_in 20, PutOp.put 30] :
              List (PutOp Nat)).length true,
            ⟨some ⟨3, fifoOrder [PutOp.put 10, PutOp.butt_in 20,
              PutOp.put 30]⟩, 0, 3 % 65536, mf, "Q"⟩) ∧
      Queue.getN
          ⟨some ⟨3, fifoOrder [PutOp.put 10, PutOp.butt_in 20,
            PutOp.put 30]⟩, 0, 3 % 65536, mf, "Q"⟩ 0
          ([PutOp.put 10, PutOp.butt_in 20, PutOp.put 30] :
            List (PutOp Nat)).length
        = some (fifoOrder [PutOp.put 10, PutOp.butt_in 20, PutOp.put 30],
            ⟨some ⟨3, []⟩, 0, 3 % 65536, mf, "Q"⟩)) :=
  ⟨by decide, by decide,
    queue_fifo_butt_in 0 3 0 "Q"
      [PutOp.put 10, PutOp.butt_in 20, PutOp.put 30] (by decide)⟩

/-! ### High-water mark: monotone, bounded by capacity (C5) -/

theorem kernel_send_back_state {α : Type} (kq : KernelQueue α) (v : α)
    (h : kq.items.length ≤ kq.capacity) :
    (xQueueSendToBack kq v).2.capacity = kq.capacity ∧
    (xQueueSendToBack kq v).2.items.length ≤ kq.capacity := by
  by_cases hlt : kq.items.length < kq.capacity
  · simp [xQueueSendToBack, hlt]; omega
  · simp [xQueueSendToBack, hlt]; exact h

theorem kernel_send_front_state {α : Type} (kq : KernelQueue α) (v : α)
    (h : kq.items.length ≤ kq.capacity) :
    (xQueueSendToFront kq v).2.capacity = kq.capacity ∧
    (xQueueSendToFront kq v).2.items.length ≤ kq.capacity := by
  by_cases hlt : kq.items.length < kq.capacity
  · simp [xQueueSendToFront, hlt]; omega
  · simp [xQueueSendToFront, hlt]; exact h

theorem kernel_receive_state {α : Type} (kq : KernelQueue α) (buf : α)
    (h : kq.items.length ≤ kq.capacity) :
    (xQueueReceive kq buf).2.1.capacity = kq.capacity ∧
    (xQueueReceive kq buf).2.1.items.length ≤ kq.capacity := by
  cases hi : kq.items with
  | nil => refine ⟨?_, ?_⟩ <;> simp [xQueueReceive, hi]
  | cons x rest =>
    refine ⟨?_, ?_⟩ <;> simp [xQueueReceive, hi]
    rw [hi] at h
    simp at h
    omega

theorem kernel_peek_state {α : Type} (kq : KernelQueue α) (buf : α) :
    (xQueuePeek kq buf).2.1 = kq := by
  cases hi : kq.items <;> simp [xQueuePeek, hi]

theorem maxfull_update_le {m f cap : Nat} (hm : m ≤ cap) (hf : f ≤ cap) :
    (if f % 65536 > m then f % 65536 else m) ≤ cap := by
  have := Nat.mod_le f 65536
  split <;> omega

theorem maxfull_update_ge (m f : Nat) :
    m ≤ if f % 65536 > m then f % 65536 else m := by
  split <;> omega

/-- One wrapper call preserves the reachable-state invariant and never
decreases the high-water mark. -/
theorem step_inv {α : Type} (cap : Nat) (q q' : Queue α) (d : α)
    (op : QOp α) (h : QInv cap q) (hs : q.step d op = some q') :
    QInv cap q' ∧ q.max_full ≤ q'.max_full := by
  obtain ⟨kq, hh, hcap, hlen, hm⟩ := h
  have hlen' : kq.items.length ≤ kq.capacity := by rw [hcap]; exact hlen
  cases op with
  | put v =>
    simp only [Queue.step, Queue.put, hh, Option.map_some',
      Option.some.injEq] at hs
    subst hs
    obtain ⟨hc2, hl2⟩ := kernel_send_back_state kq v hlen'
    refine ⟨⟨(xQueueSendToBack kq v).2, rfl, by rw [hc2, hcap],
      by rw [← hcap]; exact hl2, ?_⟩, ?_⟩
    · simp only [uxQueueMessagesWaiting]
      exact maxfull_update_le hm (by rw [← hcap]; exact hl2)
    · simp only [uxQueueMessagesWaiting]
      exact maxfull_update_ge _ _
  | isr_put v =>
    simp only [Queue.step, Queue.ISR_put, hh, xQueueSendToBackFromISR,
      uxQueueMessagesWaitingFromISR, Option.map_some',
      Option.some.injEq] at hs
    subst hs
    obtain ⟨hc2, hl2⟩ := kernel_send_back_state kq v hlen'
    refine ⟨⟨(xQueueSendToBack kq v).2, rfl, by rw [hc2, hcap],
      by rw [← hcap]; exact hl2, ?_⟩, ?_⟩
    · have : (xQueueSendToBack kq v).2.items.length ≤ cap := by
        rw [← hcap]; exact hl2
      exact maxfull_update_le hm this
    · exact maxfull_update_ge _ _
  | butt_in v =>
    simp only [Queue.step, Queue.butt_in, hh, Option.map_some',
      Option.some.injEq] at hs
    subst hs
    obtain ⟨hc2, hl2⟩ := kernel_send_front_state kq v hlen'
    exact ⟨⟨(xQueueSendToFront kq v).2, rfl, by rw [hc2, hcap],
      by rw [← hcap]; exact hl2, hm⟩, le_refl _⟩
  | isr_butt_in v =>
    simp only [Queue.step, Queue.ISR_butt_in, hh,
      xQueueSendToFrontFromISR, Option.map_some', Option.some.injEq] at hs
    subst hs
    obtain ⟨hc2, hl2⟩ := kernel_send_front_state kq v hlen'
    exact ⟨⟨(xQueueSendToFront kq v).2, rfl, by rw [hc2, hcap],
      by rw [← hcap]; exact hl2, hm⟩, le_refl _⟩
  | get =>
    simp only [Queue.step, Queue.get, hh, Option.map_some',
      Option.some.injEq] at hs
    subst hs
    obtain ⟨hc2, hl2⟩ := kernel_receive_state kq d hlen'
    exact ⟨⟨(xQueueReceive kq d).2.1, rfl, by rw [hc2, hcap],
      by rw [← hcap]; exact hl2, hm⟩, le_refl _⟩
  | isr_get =>
    simp only [Queue.step, Queue.ISR_get, hh, xQueueReceiveFromISR,
      Option.map_some', Option.some.injEq] at hs
    subst hs
    obtain ⟨hc2, hl2⟩ := kernel_receive_state kq d hlen'
    exact ⟨⟨(xQueueReceive kq d).2.1, rfl, by rw [hc2, hcap],
      by rw [← hcap]; exact hl2, hm⟩, le_refl _⟩
  | peek =>
    simp only [Queue.step, Queue.peek, hh, Option.map_some',
      Option.some.injEq] at hs
    subst hs
    rw [kernel_peek_state kq d]
    exact ⟨⟨kq, rfl, hcap, hlen, hm⟩, le_refl _⟩
  | isr_peek =>
    simp only [Queue.step, Queue.ISR_peek, hh, xQueuePeekFromISR,
      Option.map_some', Option.some.injEq] at hs
    subst hs
    rw [kernel_peek_state kq d]
    exact ⟨⟨kq, rfl, hcap, hlen, hm⟩, le_refl _⟩

/-- Running any sequence of wrapper calls preserves the invariant and
never decreases the high-water mark. -/
theorem run_inv {α : Type} (cap : Nat) (d : α) :
    ∀ (ops : List (QOp α)) (q q' : Queue α),
      QInv cap q → q.run d ops = some q' →
      QInv cap q' ∧ q.max_full ≤ q'.max_full := by
  intro ops
  induction ops with
  | nil =>
    intro q q' h hr
    simp only [Queue.run, Option.some.injEq] at hr
    subst hr
    exact ⟨h, le_refl _⟩
  | cons op rest ih =>
    intro q q' h hr
    simp only [Queue.run] at hr
    cases hstep : q.step d op with
    | none => rw [hstep] at hr; simp at hr
    | some q1 =>
      rw [hstep] at hr
      simp only [Option.some_bind] at hr
      obtain ⟨h1, hmono1⟩ := step_inv cap q q1 d op h hstep
      obtain ⟨h2, hmono2⟩ := ih q1 q' h1 hr
      exact ⟨h2, le_trans hmono1 hmono2⟩

theorem create_inv {α : Type} (cap w : Nat) (nm : String) :
    QInv cap (Queue.create α cap nm w true) := by
  refine ⟨⟨cap, []⟩, ?_, rfl, by simp, by simp [Queue.create]⟩
  simp [Queue.create, xQueueCreate]

/-- C5 (amended): over any run of wrapper calls from a freshly created
queue, the high-water mark is monotonically non-decreasing and never
exceeds the capacity; on a successful `put` the new mark equals
`max(previous mark, post-enqueue occupancy mod 2^16)` — the mark and the
occupancy snapshot live in `uint16_t` variables, so the snapshot is the
occupancy reduced mod 65536. -/
theorem queue_max_full_mono_bounded {α : Type} (d item : α)
    (cap w : Nat) (nm : String) (ops ops2 : List (QOp α))
    (q1 q2 : Queue α)
    (h1 : (Queue.create α cap nm w true).run d ops = some q1)
    (h2 : q1.run d ops2 = some q2) :
    q1.max_full ≤ q2.max_full ∧ q1.max_full ≤ cap ∧ q2.max_full ≤ cap ∧
    ∀ (q' : Queue α) (kq' : KernelQueue α),
      q1.put item = some (true, q') → q'.handle = some kq' →
      q'.max_full
        = max q1.max_full (uxQueueMessagesWaiting kq' % 65536) := by
  obtain ⟨hi1, _⟩ := run_inv cap d ops _ q1 (create_inv cap w nm) h1
  obtain ⟨hi2, hmono⟩ := run_inv cap d ops2 q1 q2 hi1 h2
  obtain ⟨kq, hh, hcap, hlen, hm⟩ := hi1
  obtain ⟨kq2, hh2, hcap2, hlen2, hm2⟩ := hi2
  refine ⟨hmono, hm, hm2, ?_⟩
  intro q' kq' hput hh'
  simp only [Queue.put, hh, Option.map_some', Option.some.injEq,
    Prod.mk.injEq] at hput
  obtain ⟨-, hq'⟩ := hput
  subst hq'
  simp only at hh'
  rw [Option.some.injEq] at hh'
  subst hh'
  simp only
  rcases Nat.lt_or_ge q1.max_full
      (uxQueueMessagesWaiting (xQueueSendToBack kq item).2 % 65536) with
    hgt | hle
  · rw [if_pos hgt, Nat.max_eq_right (le_of_lt hgt)]
  · rw [if_neg (by omega), Nat.max_eq_left hle]

theorem queue_max_full_mono_bounded_witness :
    ((Queue.create Nat 2 "Q" 0 true).run 0 [QOp.put 3]
        = some ⟨some ⟨2, [3]⟩, 0, 2, 1, "Q"⟩) ∧
    ((⟨some ⟨2, [3]⟩, 0, 2, 1, "Q"⟩ : Queue Nat).run 0 [QOp.get]
        = some ⟨some ⟨2, []⟩, 0, 2, 1, "Q"⟩) ∧
    ((⟨some ⟨2, [3]⟩, 0, 2, 1, "Q"⟩ : Queue Nat).max_full
        ≤ (⟨some ⟨2, []⟩, 0, 2, 1, "Q"⟩ : Queue Nat).max_full ∧
     (⟨some ⟨2, [3]⟩, 0, 2, 1, "Q"⟩ : Queue Nat).max_full ≤ 2 ∧
     (⟨some ⟨2, []⟩, 0, 2, 1, "Q"⟩ : Queue Nat).max_full ≤ 2 ∧
     ∀ (q' : Queue Nat) (kq' : KernelQueue Nat),
       (⟨some ⟨2, [3]⟩, 0, 2, 1, "Q"⟩ : Queue Nat).put 9 = some (true, q') →
       q'.handle = some kq' →
       q'.max_full
         = max (⟨some ⟨2, [3]⟩, 0, 2, 1, "Q"⟩ : Queue Nat).max_full
             (uxQueueMessagesWaiting kq' % 65536)) :=
  ⟨by decide, by decide,
    queue_max_full_mono_bounded 0 9 2 0 "Q" [QOp.put 3] [QOp.get] _ _
      (by decide) (by decide)⟩

/-- Reaching the counterexample state for C5 as stated: `n` successful
`put` calls on a fresh `Queue<Unit>` of capacity 65536 leave occupancy
`n` and high-water mark `min n 65535` (the `uint16_t` snapshot wraps at
2^16; `buf_size` wrapped to 0 at construction). -/
theorem putReps_create_unit (n : Nat) (h : n ≤ 65536) :
    (Queue.create Unit 65536 "Q" 0 true).putReps () n
      = some ⟨some ⟨65536, List.replicate n ()⟩, 0, 0, min n 65535, "Q"⟩ := by
  induction n with
  | zero =>
    simp [Queue.putReps, Queue.create, xQueueCreate]
  | succ n ih =>
    have hn : n ≤ 65536 := Nat.le_of_succ_le h
    rw [Queue.putReps, ih hn]
    simp only [Option.some_bind, Queue.put, Option.map_some',
      xQueueSendToBack, uxQueueMessagesWaiting]
    have hlt : (List.replicate n ()).length < 65536 := by
      simp [List.length_replicate]; omega
    rw [if_pos hlt]
    simp only [← List.replicate_succ', List.length_replicate]
    have hmf : (if (n + 1) % 65536 > min n 65535 then (n + 1) % 65536
        else min n 65535) = min (n + 1) 65535 := by
      split <;> omega
    rw [hmf]

/-- C5 as stated is violated by the `uint16_t` width of the mark: on a
`Queue<Unit>` of capacity 65536 (creatable where memory allows it, e.g.
64 KiB of one-byte items), after 65535 successful puts the mark is 65535;
the 65536th successful put has post-enqueue occupancy 65536, so the claim
demands `max(65535, 65536) = 65536`, but the code's `uint16_t` occupancy
snapshot wraps to 0 and the mark stays 65535. -/
theorem queue_max_full_wraps :
    (Queue.create Unit 65536 "Q" 0 true).putReps () 65535 = some cexQ ∧
    cexQ.max_full = 65535 ∧
    cexQ.put () = some (true, cexQ2) ∧
    cexQ2.handle = some ⟨65536, List.replicate 65536 ()⟩ ∧
    uxQueueMessagesWaiting
        (⟨65536, List.replicate 65536 ()⟩ : KernelQueue Unit) = 65536 ∧
    max cexQ.max_full 65536 = 65536 ∧
    cexQ2.max_full = 65535 := by
  have e1 : xQueueSendToBack
      (⟨65536, List.replicate 65535 ()⟩ : KernelQueue Unit) ()
      = (true, ⟨65536, List.replicate 65536 ()⟩) := by
    show (if (List.replicate 65535 ()).length < 65536 then
        (true, (⟨65536, List.replicate 65535 () ++ [()]⟩ :
          KernelQueue Unit))
      else (false, ⟨65536, List.replicate 65535 ()⟩))
      = (true, ⟨65536, List.replicate 65536 ()⟩)
    rw [List.length_replicate, if_pos (by omega),
      ← List.replicate_succ']
  refine ⟨?_, rfl, ?_, rfl, ?_, ?_, rfl⟩
  · have h := putReps_create_unit 65535 (by omega)
    rw [Nat.min_self] at h
    exact h
  · show Queue.put
        ⟨some ⟨65536, List.replicate 65535 ()⟩, 0, 0, 65535, "Q"⟩ ()
      = some (true, cexQ2)
    simp only [Queue.put, Option.map_some']
    rw [e1]
    have hux : uxQueueMessagesWaiting
        ((true, (⟨65536, List.replicate 65536 ()⟩ :
          KernelQueue Unit))).2 = 65536 := by
      simp only [uxQueueMessagesWaiting, List.length_replicate]
    rw [hux]
    rfl
  · simp only [uxQueueMessagesWaiting, List.length_replicate]
  · show max 65535 65536 = 65536
    omega

end ME507
